import Mathlib

/-!
Verification of `doc/thirdparty/doxygen/dedup_index.py`.

The script is four lines of glue over `lxml.etree`:

    def xsl_transform(inDoc, xslFile, outDoc):
        doc = ET.parse(inDoc)
        xslt = ET.parse(xslFile)
        transform = ET.XSLT(xslt)
        transformed_doc = transform(doc)
        with open(outDoc, 'w') as f:
            print(transformed_doc, file=f)
        return

    def doxy_deduplicate_index():
        xsl_transform(
                "@DOXYGEN_OUTPUT_DIRECTORY@/xml/index.xml",
                "@PROJECT_DOC_DIR@/thirdparty/doxygen/dedup_index.xsl",
                "@DOXYGEN_OUTPUT_DIRECTORY@/xml/index.xml")
        print('Removed duplicated <compound> elements in index.xml')

We embed it shallowly: the filesystem is a `World` (partial map from paths to
file contents, plus a writability predicate), the external `lxml` engine is an
abstract `Engine` of pure parse/compile/apply/serialize functions, Python
exceptions are the `Except Err` monad, and `print(x, file=f)` writes
`str(x)` followed by one newline.  The dedup stylesheet
`dedup_index.xsl` is not part of the sources, so its semantics
(keep the first `<compound>` per `refid`) is modelled from the spec.
-/

namespace DedupIndex

/-- A filesystem path, as the plain string the script passes around. -/
abbrev Path := String

/-- The ambient filesystem: contents of each file (`none` = absent or
unreadable) and whether a path can be opened for writing. -/
structure World where
  files : Path → Option String
  writable : Path → Bool

/-- The exceptions the script can raise, mirroring the error taxonomy of the
underlying calls: unreadable file or XML syntax error from `ET.parse`,
stylesheet-compilation error from `ET.XSLT`, transform-execution error from
`transform(doc)`, and filesystem error from `open(outDoc, 'w')`. -/
inductive Err where
  | ioRead (p : Path)
  | badXml (p : Path) (msg : String)
  | xsltCompileErr (msg : String)
  | xsltApplyErr (msg : String)
  | ioWrite (p : Path)
deriving DecidableEq

/-- The external XML/XSLT engine (`lxml.etree`), abstracted as pure functions:
`parseDoc` parses file contents into a document, `compileXslt` is `ET.XSLT`,
`applyXslt` runs a compiled transform on a document, `serialize` is the
`str()` conversion `print` applies to the transform result. -/
structure Engine (Doc Tr Res : Type) where
  parseDoc : String → Except String Doc
  compileXslt : Doc → Except String Tr
  applyXslt : Tr → Doc → Except String Res
  serialize : Res → String

variable {Doc Tr Res : Type}

/-- `ET.parse(p)`: read the file at `p` from the world and parse it; raises
`ioRead` if the file is unreadable and `badXml` if parsing fails. -/
def ET_parse (eng : Engine Doc Tr Res) (w : World) (p : Path) : Except Err Doc :=
  match w.files p with
  | none => .error (.ioRead p)
  | some s =>
    match eng.parseDoc s with
    | .error m => .error (.badXml p m)
    | .ok d => .ok d

/-- `ET.XSLT(xslt)`: compile a parsed stylesheet document into a transform. -/
def ET_XSLT (eng : Engine Doc Tr Res) (xslt : Doc) : Except Err Tr :=
  match eng.compileXslt xslt with
  | .error m => .error (.xsltCompileErr m)
  | .ok t => .ok t

/-- `transform(doc)`: execute a compiled transform on a document. -/
def runXslt (eng : Engine Doc Tr Res) (t : Tr) (d : Doc) : Except Err Res :=
  match eng.applyXslt t d with
  | .error m => .error (.xsltApplyErr m)
  | .ok r => .ok r

/-- `open(p, 'w')` followed by writing `s`: fails with `ioWrite` when the
path is not writable, otherwise replaces the contents of `p` with `s`. -/
def writeFile (w : World) (p : Path) (s : String) : Except Err World :=
  if w.writable p then
    .ok { w with files := fun q => if q = p then some s else w.files q }
  else .error (.ioWrite p)

/-- The script's `xsl_transform(inDoc, xslFile, outDoc)`: parse the input,
parse the stylesheet, compile it, run the transform, and write
`str(transformed_doc)` plus the newline appended by `print` to `outDoc`.
Each step short-circuits on error exactly as an uncaught Python exception
would. -/
def xsl_transform (eng : Engine Doc Tr Res) (w : World)
    (inDoc xslFile outDoc : Path) : Except Err World :=
  match ET_parse eng w inDoc with
  | .error e => .error e
  | .ok doc =>
    match ET_parse eng w xslFile with
    | .error e => .error e
    | .ok xslt =>
      match ET_XSLT eng xslt with
      | .error e => .error e
      | .ok transform =>
        match runXslt eng transform doc with
        | .error e => .error e
        | .ok transformed_doc =>
            writeFile w outDoc (eng.serialize transformed_doc ++ "\n")

/-- The filesystem after running `xsl_transform` as a process: an uncaught
exception aborts the script before any write, leaving the world unchanged. -/
def runWorld (eng : Engine Doc Tr Res) (w : World)
    (inDoc xslFile outDoc : Path) : World :=
  match xsl_transform eng w inDoc xslFile outDoc with
  | .ok w2 => w2
  | .error _ => w

/-- The build-time-substituted path of the doxygen XML index; it is both the
input and the output of the driver's single transform call. -/
def doxygenIndexPath : Path := "@DOXYGEN_OUTPUT_DIRECTORY@/xml/index.xml"

/-- The build-time-substituted path of the deduplication stylesheet. -/
def dedupXslPath : Path := "@PROJECT_DOC_DIR@/thirdparty/doxygen/dedup_index.xsl"

/-- The fixed completion message the driver prints on success. -/
def completionMsg : String := "Removed duplicated <compound> elements in index.xml"

/-- The driver `doxy_deduplicate_index()`: one `xsl_transform` call on the
three build-substituted paths (input path = output path), then the fixed
completion line on stdout.  The returned list is the lines printed to
stdout; an exception propagates before anything is printed. -/
def doxy_deduplicate_index (eng : Engine Doc Tr Res) (w : World) :
    Except Err (World × List String) :=
  match xsl_transform eng w doxygenIndexPath dedupXslPath doxygenIndexPath with
  | .error e => .error e
  | .ok w2 => .ok (w2, [completionMsg])

/-- The observable steps of one driver invocation, in source order. -/
inductive Event where
  | loadInput
  | loadStylesheet
  | compileStylesheet
  | executeTransform
  | serializeResult
  | completionNotice
deriving DecidableEq

/-- The full linear trace of a successful driver run. -/
def fullTrace : List Event :=
  [.loadInput, .loadStylesheet, .compileStylesheet, .executeTransform,
   .serializeResult, .completionNotice]

/-- The driver instrumented with a trace: each event is recorded when the
corresponding step completes, so an exception cuts the trace at the failing
step.  The instrumentation provably does not change the result (see the
control-flow theorem's last conjunct). -/
def doxyTraced (eng : Engine Doc Tr Res) (w : World) :
    Except Err (World × List String) × List Event :=
  match ET_parse eng w doxygenIndexPath with
  | .error e => (.error e, [])
  | .ok doc =>
    match ET_parse eng w dedupXslPath with
    | .error e => (.error e, [.loadInput])
    | .ok xslt =>
      match ET_XSLT eng xslt with
      | .error e => (.error e, [.loadInput, .loadStylesheet])
      | .ok transform =>
        match runXslt eng transform doc with
        | .error e => (.error e, [.loadInput, .loadStylesheet, .compileStylesheet])
        | .ok transformed_doc =>
          match writeFile w doxygenIndexPath
              (eng.serialize transformed_doc ++ "\n") with
          | .error e =>
              (.error e,
               [.loadInput, .loadStylesheet, .compileStylesheet, .executeTransform])
          | .ok w2 => (.ok (w2, [completionMsg]), fullTrace)

/-- The first stage of `xsl_transform` that fails, together with the exception
it raises: either reading/parsing the input, or reading/parsing the
stylesheet, or compiling it, or executing the transform, or opening the
output for writing. -/
def stageError (eng : Engine Doc Tr Res) (w : World)
    (inDoc xslFile outDoc : Path) (e : Err) : Prop :=
  ET_parse eng w inDoc = .error e
  ∨ (∃ doc, ET_parse eng w inDoc = .ok doc ∧ ET_parse eng w xslFile = .error e)
  ∨ (∃ doc xslt, ET_parse eng w inDoc = .ok doc ∧ ET_parse eng w xslFile = .ok xslt
      ∧ ET_XSLT eng xslt = .error e)
  ∨ (∃ doc xslt t, ET_parse eng w inDoc = .ok doc ∧ ET_parse eng w xslFile = .ok xslt
      ∧ ET_XSLT eng xslt = .ok t ∧ runXslt eng t doc = .error e)
  ∨ (∃ doc xslt t r, ET_parse eng w inDoc = .ok doc ∧ ET_parse eng w xslFile = .ok xslt
      ∧ ET_XSLT eng xslt = .ok t ∧ runXslt eng t doc = .ok r
      ∧ writeFile w outDoc (eng.serialize r ++ "\n") = .error e)

/-- A degenerate engine for concrete runs: documents are raw strings, the
"transform" is the identity, serialization is the identity. -/
def trivEngine : Engine String Unit String where
  parseDoc := fun s => .ok s
  compileXslt := fun _ => .ok ()
  applyXslt := fun _ d => .ok d
  serialize := fun r => r

/-- An engine whose parser rejects everything, to exercise the error paths. -/
def failEngine : Engine String Unit String where
  parseDoc := fun _ => .error "syntax error"
  compileXslt := fun _ => .ok ()
  applyXslt := fun _ d => .ok d
  serialize := fun r => r

/-- A small world holding a distinct input file and stylesheet file. -/
def w0 : World where
  files := fun p =>
    if p = "in.xml" then some "doc" else if p = "s.xsl" then some "sty" else none
  writable := fun _ => true

/-- A world holding files at the two build-substituted driver paths. -/
def wDriver : World where
  files := fun p =>
    if p = doxygenIndexPath then some "indexdoc"
    else if p = dedupXslPath then some "sty" else none
  writable := fun _ => true

/-! ### The deduplication stylesheet, modelled from the spec

`dedup_index.xsl` is referenced by the script but is not among the sources;
its semantics below is modelled from the spec. -/

/-- An index entry element `<compound refid="..."/>` of the doxygen XML
index; the `refid` attribute is the deduplication key. -/
structure Compound where
  refid : String
deriving DecidableEq

/-- An index document `<index> ... </index>`: a list of compound entries. -/
structure IndexDoc where
  compounds : List Compound
deriving DecidableEq

/-- Modelled from the spec: the deduplication rule of the missing stylesheet
`dedup_index.xsl` — "keep first `<compound>` per unique `refid`" — walking the
list with the set of already-seen keys. -/
def dedupAux : List Compound → List String → List Compound
  | [], _ => []
  | c :: rest, seen =>
    if c.refid ∈ seen then dedupAux rest seen
    else c :: dedupAux rest (c.refid :: seen)

/-- Modelled from the spec: the whole-document deduplication performed by the
missing stylesheet `dedup_index.xsl`: keep the first occurrence of each
`refid`, preserving order. -/
def dedupKeepFirst (l : List Compound) : List Compound := dedupAux l []

/-- The deduplication keys of a list of compounds, in order. -/
def refids (l : List Compound) : List String := l.map fun c => c.refid

/-! ### A concrete XML fragment: parsing and serializing index documents

Modelled from the spec: the on-disk form of an index document is
`<index><compound refid="..."/>...</index>`, the format consumed and produced
by the dedup transform in the spec's end-to-end scenario. -/

/-- The double-quote character. -/
def quoteChar : Char := Char.ofNat 34

/-- The characters of the literal `<index>`. -/
def litIndexOpen : List Char := "<index>".data

/-- The characters of the literal `</index>`. -/
def litIndexClose : List Char := "</index>".data

/-- The characters of the literal `<compound refid="`. -/
def litCompoundOpen : List Char := "<compound refid=".data ++ [quoteChar]

/-- The characters of the literal `/>` closing a compound element. -/
def litCompoundClose : List Char := "/>".data

/-- Whitespace tolerated after the closing `</index>` tag. -/
def isWhiteChar (c : Char) : Bool := c = '\n' || c = ' ' || c = '\t' || c = '\r'

/-- Drop an expected literal from the front of the input, or fail. -/
def dropLit : List Char → List Char → Option (List Char)
  | [], cs => some cs
  | _ :: _, [] => none
  | l :: ls, c :: cs => if c = l then dropLit ls cs else none

/-- Read an attribute value up to (and consuming) the closing double quote. -/
def readRefid (cs : List Char) : Option (String × List Char) :=
  match cs.dropWhile (fun c => c ≠ quoteChar) with
  | [] => none
  | _ :: rest => some (String.mk (cs.takeWhile fun c => c ≠ quoteChar), rest)

/-- Parse the sequence of `<compound refid="..."/>` elements followed by
`</index>` and trailing whitespace; the fuel bounds the number of elements. -/
def parseCompoundsAux : Nat → List Char → Option (List Compound)
  | 0, _ => none
  | fuel + 1, cs =>
    match dropLit litIndexClose cs with
    | some rest => if rest.all isWhiteChar then some [] else none
    | none =>
      match dropLit litCompoundOpen cs with
      | none => none
      | some cs2 =>
        match readRefid cs2 with
        | none => none
        | some (r, cs3) =>
          match dropLit litCompoundClose cs3 with
          | none => none
          | some cs4 =>
            match parseCompoundsAux fuel cs4 with
            | none => none
            | some l => some (⟨r⟩ :: l)

/-- Parse an index document `<index>...</index>`; anything else is an XML
syntax error. -/
def parseIndex (s : String) : Except String IndexDoc :=
  match dropLit litIndexOpen s.data with
  | none => .error "XMLSyntaxError"
  | some cs =>
    match parseCompoundsAux (cs.length + 1) cs with
    | none => .error "XMLSyntaxError"
    | some l => .ok ⟨l⟩

/-- The characters of one serialized `<compound refid="..."/>` element. -/
def serCompound (c : Compound) : List Char :=
  litCompoundOpen ++ c.refid.data ++ quoteChar :: litCompoundClose

/-- The characters of a serialized sequence of compound elements. -/
def serCompounds : List Compound → List Char
  | [] => []
  | c :: rest => serCompound c ++ serCompounds rest

/-- Serialize an index document back to its on-disk form. -/
def serializeIndex (d : IndexDoc) : String :=
  String.mk (litIndexOpen ++ serCompounds d.compounds ++ litIndexClose)

/-! ### The concrete engine for the dedup scenario -/

/-- A document as `lxml` sees it in this scenario: either an index document
or the deduplication stylesheet. -/
inductive MDoc where
  | index (d : IndexDoc)
  | stylesheet
deriving DecidableEq

/-- Modelled from the spec: the textual content of the missing stylesheet
`dedup_index.xsl` (its exact text is irrelevant; only its identity as "the
dedup stylesheet" matters to the model). -/
def dedupXslText : String := "xsl:stylesheet keep first compound per refid"

/-- Modelled from the spec: an `lxml` engine in which parsing recognises the
dedup stylesheet and index documents, compiling accepts only the stylesheet,
and applying the compiled stylesheet performs keep-first-per-`refid`
deduplication of the index — the contract the spec assigns to
`dedup_index.xsl`. -/
def dedupEngine : Engine MDoc Unit IndexDoc where
  parseDoc := fun s =>
    if s = dedupXslText then .ok .stylesheet
    else
      match parseIndex s with
      | .error m => .error m
      | .ok d => .ok (.index d)
  compileXslt := fun d =>
    match d with
    | .stylesheet => .ok ()
    | .index _ => .error "not a stylesheet"
  applyXslt := fun _ d =>
    match d with
    | .index d => .ok ⟨dedupKeepFirst d.compounds⟩
    | .stylesheet => .error "cannot transform a stylesheet"
  serialize := serializeIndex

/-- The world after a successful driver run on `wDriver` with `trivEngine`. -/
def wDriver2 : World where
  files := fun q =>
    if q = doxygenIndexPath then some "indexdoc\n" else wDriver.files q
  writable := wDriver.writable


/-- A world agreeing with `w0` on the input and stylesheet files but holding
junk everywhere else, for the determinism witness. -/
def wC10 : World where
  files := fun p =>
    if p = "in.xml" then some "doc"
    else if p = "s.xsl" then some "sty" else some "junk"
  writable := fun _ => true

/-- The spec's end-to-end scenario world: an index file with a duplicated
`refid="A"` entry and the dedup stylesheet. -/
def w3 : World where
  files := fun p =>
    if p = "in.xml" then
      some "<index><compound refid=\"A\"/><compound refid=\"A\"/><compound refid=\"B\"/></index>"
    else if p = "dedup.xsl" then some dedupXslText else none
  writable := fun _ => true


theorem refids_cons (c : Compound) (l : List Compound) :
    refids (c :: l) = c.refid :: refids l := rfl

/-- Keys already seen never reappear in the deduplicated suffix. -/
theorem dedupAux_not_mem_of_seen (l : List Compound) (seen : List String)
    (k : String) (hk : k ∈ seen) : k ∉ refids (dedupAux l seen) := by
  induction l generalizing seen with
  | nil => simp [dedupAux, refids]
  | cons c rest ih =>
    unfold dedupAux
    split
    · exact ih seen hk
    · rename_i hc
      rw [refids_cons]
      intro hmem
      rcases List.mem_cons.mp hmem with heq | hmem2
      · exact hc (heq ▸ hk)
      · exact ih (c.refid :: seen) (List.mem_cons_of_mem _ hk) hmem2

/-- Every key of the input that is not yet seen appears exactly once in the
deduplicated output. -/
theorem dedupAux_count_eq_one (l : List Compound) (seen : List String)
    (k : String) (hk : k ∉ seen) (hmem : k ∈ refids l) :
    (refids (dedupAux l seen)).count k = 1 := by
  induction l generalizing seen with
  | nil => cases hmem
  | cons c rest ih =>
    unfold dedupAux
    split
    · rename_i hc
      have hne : k ≠ c.refid := fun h => hk (h ▸ hc)
      rcases List.mem_cons.mp hmem with heq | hmem2
      · exact absurd heq hne
      · exact ih seen hk hmem2
    · rename_i hc
      rw [refids_cons]
      by_cases hkc : k = c.refid
      · subst hkc
        have hnot : c.refid ∉ refids (dedupAux rest (c.refid :: seen)) :=
          dedupAux_not_mem_of_seen rest (c.refid :: seen) c.refid
            (List.mem_cons_self _ _)
        rw [List.count_cons_self, List.count_eq_zero.mpr hnot]
      · rcases List.mem_cons.mp hmem with heq | hmem2
        · exact absurd heq hkc
        · have hk2 : k ∉ c.refid :: seen := by
            intro h
            rcases List.mem_cons.mp h with h1 | h1
            · exact hkc h1
            · exact hk h1
          rw [List.count_cons_of_ne hkc, ih (c.refid :: seen) hk2 hmem2]

/-- Deduplicated keys are pairwise distinct and disjoint from `seen`. -/
theorem dedupAux_nodup (l : List Compound) (seen : List String) :
    (refids (dedupAux l seen)).Nodup
    ∧ ∀ k ∈ refids (dedupAux l seen), k ∉ seen := by
  induction l generalizing seen with
  | nil => simp [dedupAux, refids]
  | cons c rest ih =>
    unfold dedupAux
    split
    · exact ih seen
    · rename_i hc
      obtain ⟨hnd, hdisj⟩ := ih (c.refid :: seen)
      rw [refids_cons]
      constructor
      · exact List.nodup_cons.mpr
          ⟨fun h => hdisj c.refid h (List.mem_cons_self _ _), hnd⟩
      · intro k hkmem hkseen
        rcases List.mem_cons.mp hkmem with heq | hmem2
        · exact hc (heq ▸ hkseen)
        · exact hdisj k hmem2 (List.mem_cons_of_mem _ hkseen)

/-- A list whose keys are already distinct (and unseen) is left unchanged. -/
theorem dedupAux_eq_self (l : List Compound) (seen : List String)
    (hnd : (refids l).Nodup) (hdisj : ∀ k ∈ refids l, k ∉ seen) :
    dedupAux l seen = l := by
  induction l generalizing seen with
  | nil => rfl
  | cons c rest ih =>
    rw [refids_cons] at hnd hdisj
    obtain ⟨hhead, htail⟩ := List.nodup_cons.mp hnd
    unfold dedupAux
    rw [if_neg (hdisj c.refid (List.mem_cons_self _ _))]
    congr 1
    refine ih (c.refid :: seen) htail ?_
    intro k hk hkmem
    rcases List.mem_cons.mp hkmem with h1 | h1
    · exact hhead (h1 ▸ hk)
    · exact hdisj k (List.mem_cons_of_mem _ hk) h1

/-- Deduplication is idempotent: a second pass changes nothing. -/
theorem dedupKeepFirst_idem (l : List Compound) :
    dedupKeepFirst (dedupKeepFirst l) = dedupKeepFirst l := by
  unfold dedupKeepFirst
  exact dedupAux_eq_self (dedupAux l []) [] (dedupAux_nodup l []).1
    (fun k _ h => (List.not_mem_nil k) h)

/-- Deduplication only keeps elements of the input. -/
theorem dedupAux_subset (l : List Compound) (seen : List String) (c : Compound)
    (h : c ∈ dedupAux l seen) : c ∈ l := by
  induction l generalizing seen with
  | nil => cases h
  | cons a rest ih =>
    unfold dedupAux at h
    split at h
    · exact List.mem_cons_of_mem _ (ih seen h)
    · rcases List.mem_cons.mp h with heq | hmem
      · exact heq ▸ List.mem_cons_self _ _
      · exact List.mem_cons_of_mem _ (ih (a.refid :: seen) hmem)

/-! ### Parser/serializer roundtrip -/

theorem dropLit_append (p rest : List Char) : dropLit p (p ++ rest) = some rest := by
  induction p with
  | nil => rfl
  | cons a tl ih => simp [dropLit, ih]

/-- `</index>` never matches at the start of a serialized compound. -/
theorem dropLit_close_at_compound (rest : List Char) :
    dropLit litIndexClose (litCompoundOpen ++ rest) = none := by
  have hclose : litIndexClose = '<' :: '/' :: "index>".data := by decide
  have hopen : litCompoundOpen = '<' :: 'c' :: ("ompound refid=".data ++ [quoteChar]) := by
    decide
  rw [hclose, hopen]
  simp [dropLit]

theorem takeWhile_no_quote (name rest : List Char) (h : quoteChar ∉ name) :
    (name ++ quoteChar :: rest).takeWhile (fun c => c ≠ quoteChar) = name := by
  induction name with
  | nil => simp [List.takeWhile_cons]
  | cons a tl ih =>
    have ha : a ≠ quoteChar := fun he => h (he ▸ List.mem_cons_self _ _)
    have htl : quoteChar ∉ tl := fun hm => h (List.mem_cons_of_mem _ hm)
    rw [List.cons_append, List.takeWhile_cons, if_pos (decide_eq_true ha), ih htl]

theorem dropWhile_no_quote (name rest : List Char) (h : quoteChar ∉ name) :
    (name ++ quoteChar :: rest).dropWhile (fun c => c ≠ quoteChar)
      = quoteChar :: rest := by
  induction name with
  | nil => simp [List.dropWhile_cons]
  | cons a tl ih =>
    have ha : a ≠ quoteChar := fun he => h (he ▸ List.mem_cons_self _ _)
    have htl : quoteChar ∉ tl := fun hm => h (List.mem_cons_of_mem _ hm)
    rw [List.cons_append, List.dropWhile_cons, if_pos (decide_eq_true ha), ih htl]

theorem readRefid_append (name rest : List Char) (h : quoteChar ∉ name) :
    readRefid (name ++ quoteChar :: rest) = some (String.mk name, rest) := by
  unfold readRefid
  rw [dropWhile_no_quote name rest h, takeWhile_no_quote name rest h]

/-- Whatever `readRefid` reads contains no double quote. -/
theorem readRefid_no_quote (cs : List Char) (r : String) (rest : List Char)
    (h : readRefid cs = some (r, rest)) : quoteChar ∉ r.data := by
  unfold readRefid at h
  split at h
  · cases h
  · cases h
    intro hmem
    have := List.mem_takeWhile_imp hmem
    simp at this

/-- Parsing inverts serialization, up to trailing whitespace, for documents
whose keys contain no double quote. -/
theorem parseAux_ser (l : List Compound) : ∀ (fuel : Nat) (ws : List Char),
    (∀ c ∈ l, quoteChar ∉ c.refid.data) → ws.all isWhiteChar = true →
    l.length < fuel →
    parseCompoundsAux fuel (serCompounds l ++ litIndexClose ++ ws) = some l := by
  induction l with
  | nil =>
    intro fuel ws _ hws hlen
    cases fuel with
    | zero => omega
    | succ f =>
      unfold parseCompoundsAux
      simp [serCompounds, dropLit_append, hws]
  | cons c tl ih =>
    intro fuel ws h hws hlen
    cases fuel with
    | zero => omega
    | succ f =>
      have hhead : quoteChar ∉ c.refid.data := h c (List.mem_cons_self _ _)
      have htail : ∀ a ∈ tl, quoteChar ∉ a.refid.data :=
        fun a ha => h a (List.mem_cons_of_mem _ ha)
      have hshape : serCompounds (c :: tl) ++ litIndexClose ++ ws
          = litCompoundOpen ++ (c.refid.data ++ quoteChar ::
              (litCompoundClose ++ (serCompounds tl ++ litIndexClose ++ ws))) := by
        rw [serCompounds, serCompound]
        simp [List.append_assoc]
      have hread := readRefid_append c.refid.data
        (litCompoundClose ++ (serCompounds tl ++ litIndexClose ++ ws)) hhead
      unfold parseCompoundsAux
      rw [hshape]
      simp only [dropLit_close_at_compound, dropLit_append, hread]
      rw [ih f ws htail hws (Nat.lt_of_succ_lt_succ hlen)]

theorem serCompound_length (c : Compound) : 1 ≤ (serCompound c).length := by
  have h17 : litCompoundOpen.length = 17 := by decide
  simp [serCompound, List.length_append, h17]
  omega

theorem serCompounds_length (l : List Compound) :
    l.length ≤ (serCompounds l).length := by
  induction l with
  | nil => simp [serCompounds]
  | cons c tl ih =>
    rw [serCompounds, List.length_append, List.length_cons]
    have := serCompound_length c
    omega

/-- Roundtrip: parsing a serialized index document followed by the newline
that `print` appends recovers the document, provided no key contains a
double quote. -/
theorem parseIndex_round (d : IndexDoc)
    (h : ∀ c ∈ d.compounds, quoteChar ∉ c.refid.data) :
    parseIndex (serializeIndex d ++ "\n") = .ok d := by
  unfold parseIndex serializeIndex
  rw [String.data_append]
  have hdata : (String.mk (litIndexOpen ++ serCompounds d.compounds ++ litIndexClose)).data
      = litIndexOpen ++ serCompounds d.compounds ++ litIndexClose := rfl
  rw [hdata]
  have hnl : ("\n" : String).data = ['\n'] := by decide
  rw [hnl]
  have hshape : litIndexOpen ++ serCompounds d.compounds ++ litIndexClose ++ ['\n']
      = litIndexOpen ++ (serCompounds d.compounds ++ litIndexClose ++ ['\n']) := by
    simp [List.append_assoc]
  have hlen : d.compounds.length
      < (serCompounds d.compounds ++ litIndexClose ++ ['\n']).length + 1 := by
    rw [List.length_append, List.length_append]
    have := serCompounds_length d.compounds
    omega
  rw [hshape]
  simp only [dropLit_append]
  rw [parseAux_ser d.compounds _ ['\n'] h (by decide) hlen]

/-- Everything the parser accepts has quote-free keys. -/
theorem parseAux_no_quote : ∀ (fuel : Nat) (cs : List Char) (l : List Compound),
    parseCompoundsAux fuel cs = some l → ∀ c ∈ l, quoteChar ∉ c.refid.data := by
  intro fuel
  induction fuel with
  | zero => intro cs l h; cases h
  | succ f ih =>
    intro cs l h
    unfold parseCompoundsAux at h
    split at h
    · split at h
      · cases h
        intro c hc
        cases hc
      · cases h
    · split at h
      · cases h
      split at h
      · cases h
      rename_i r cs3 hread
      split at h
      · cases h
      split at h
      · cases h
      rename_i tl htl
      cases h
      intro c hc
      rcases List.mem_cons.mp hc with heq | hmem
      · subst heq
        exact readRefid_no_quote _ _ _ hread
      · exact ih _ tl htl c hmem

theorem parseIndex_no_quote (s : String) (d : IndexDoc)
    (h : parseIndex s = .ok d) : ∀ c ∈ d.compounds, quoteChar ∉ c.refid.data := by
  unfold parseIndex at h
  split at h
  · cases h
  · split at h
    · cases h
    · rename_i l hl
      cases h
      exact parseAux_no_quote _ _ l hl

/-- A serialized index document plus trailing newline never equals the
stylesheet text (their first characters differ). -/
theorem ser_ne_xsl (d : IndexDoc) : serializeIndex d ++ "\n" ≠ dedupXslText := by
  intro h
  have hdata : (serializeIndex d ++ "\n").data = dedupXslText.data := by rw [h]
  rw [String.data_append] at hdata
  have hopen : litIndexOpen = '<' :: "index>".data := by decide
  have hser : (serializeIndex d).data
      = '<' :: ("index>".data ++ serCompounds d.compounds ++ litIndexClose) := by
    show litIndexOpen ++ serCompounds d.compounds ++ litIndexClose
      = '<' :: ("index>".data ++ serCompounds d.compounds ++ litIndexClose)
    rw [hopen]
    simp [List.append_assoc]
  rw [hser] at hdata
  have hx : dedupXslText.data
      = 'x' :: "sl:stylesheet keep first compound per refid".data := by decide
  rw [hx] at hdata
  have : ('<' : Char) = 'x' := by
    injection hdata
  cases this

/-- What a successful parse with `dedupEngine` tells us about the file. -/
theorem dedupEngine_parse_index {s : String} {d : IndexDoc}
    (h : dedupEngine.parseDoc s = .ok (.index d)) : parseIndex s = .ok d := by
  unfold dedupEngine at h
  simp only at h
  split at h
  · cases h
  · split at h
    · cases h
    · rename_i d2 hd2
      cases h
      exact hd2

/-- A successful stylesheet parse with `dedupEngine` pins the file text. -/
theorem dedupEngine_parse_stylesheet {s : String}
    (h : dedupEngine.parseDoc s = .ok .stylesheet) : s = dedupXslText := by
  unfold dedupEngine at h
  simp only at h
  split at h
  · assumption
  · split at h
    · cases h
    · cases h

/-! ### Helper lemmas about the embedding -/

/-- `ET.parse` reads only the file at its path. -/
theorem ET_parse_congr (eng : Engine Doc Tr Res) {wA wB : World} (p : Path)
    (h : wA.files p = wB.files p) : ET_parse eng wA p = ET_parse eng wB p := by
  unfold ET_parse
  rw [h]

/-- Unfolding of a successful `writeFile`. -/
theorem writeFile_ok {w : World} {p : Path} {s : String} {w2 : World}
    (h : writeFile w p s = .ok w2) :
    w.writable p = true ∧ w2.files p = some s
      ∧ (∀ q, q ≠ p → w2.files q = w.files q) ∧ w2.writable = w.writable := by
  unfold writeFile at h
  split at h
  · rename_i hw
    cases h
    refine ⟨hw, by simp, fun q hq => by simp [hq], rfl⟩
  · cases h

/-- A successful `xsl_transform` decomposes into its five successful stages. -/
theorem xsl_transform_ok_iff (eng : Engine Doc Tr Res) (w : World)
    (inDoc xslFile outDoc : Path) (w2 : World) :
    xsl_transform eng w inDoc xslFile outDoc = .ok w2 ↔
      ∃ doc xslt t r,
        ET_parse eng w inDoc = .ok doc ∧ ET_parse eng w xslFile = .ok xslt
        ∧ ET_XSLT eng xslt = .ok t ∧ runXslt eng t doc = .ok r
        ∧ writeFile w outDoc (eng.serialize r ++ "\n") = .ok w2 := by
  constructor
  · intro h
    unfold xsl_transform at h
    split at h
    · cases h
    rename_i doc hdoc
    split at h
    · cases h
    rename_i xslt hxslt
    split at h
    · cases h
    rename_i t ht
    split at h
    · cases h
    rename_i r hr
    exact ⟨doc, xslt, t, r, hdoc, hxslt, ht, hr, h⟩
  · rintro ⟨doc, xslt, t, r, hdoc, hxslt, ht, hr, hw⟩
    unfold xsl_transform
    simp only [hdoc, hxslt, ht, hr, hw]

/-! ### Claims -/

/-- C1 (counterexample): the claim "the file at `outputPath` contains exactly
the serialized result" is false: with the identity engine the transform result
of `"doc"` serializes to `"doc"`, yet after a successful call the output file
holds `"doc\n"` — `print` appended a newline. -/
theorem C1_counterexample :
    runXslt trivEngine () "doc" = .ok "doc"
    ∧ xsl_transform trivEngine w0 "in.xml" "s.xsl" "out.xml"
        = .ok (runWorld trivEngine w0 "in.xml" "s.xsl" "out.xml")
    ∧ (runWorld trivEngine w0 "in.xml" "s.xsl" "out.xml").files "out.xml"
        = some "doc\n"
    ∧ trivEngine.serialize "doc" = "doc"
    ∧ some ("doc\n" : String) ≠ some ("doc" : String) :=
  ⟨rfl, rfl, by decide, rfl, by decide⟩

/-- C1 (amended): after a successful `xsl_transform`, the file at `outDoc`
contains the serialized result of applying the stylesheet to the input
document followed by the single newline appended by `print`, and the call
returns nothing beyond the updated world. -/
theorem C1_output_serialization (eng : Engine Doc Tr Res) (w : World)
    (inDoc xslFile outDoc : Path) (w2 : World)
    (h : xsl_transform eng w inDoc xslFile outDoc = .ok w2) :
    ∃ doc xslt t r,
      ET_parse eng w inDoc = .ok doc ∧ ET_parse eng w xslFile = .ok xslt
      ∧ ET_XSLT eng xslt = .ok t ∧ runXslt eng t doc = .ok r
      ∧ w2.files outDoc = some (eng.serialize r ++ "\n") := by
  obtain ⟨doc, xslt, t, r, hdoc, hxslt, ht, hr, hw⟩ :=
    (xsl_transform_ok_iff eng w inDoc xslFile outDoc w2).mp h
  exact ⟨doc, xslt, t, r, hdoc, hxslt, ht, hr, (writeFile_ok hw).2.1⟩

/-- C1 witness: the amended claim at a concrete engine, world and paths. -/
theorem C1_witness :
    ∃ doc xslt t r,
      ET_parse trivEngine w0 "in.xml" = .ok doc
      ∧ ET_parse trivEngine w0 "s.xsl" = .ok xslt
      ∧ ET_XSLT trivEngine xslt = .ok t ∧ runXslt trivEngine t doc = .ok r
      ∧ (runWorld trivEngine w0 "in.xml" "s.xsl" "out.xml").files "out.xml"
          = some (trivEngine.serialize r ++ "\n") :=
  C1_output_serialization trivEngine w0 "in.xml" "s.xsl" "out.xml"
    (runWorld trivEngine w0 "in.xml" "s.xsl" "out.xml") rfl

/-- C2: if reading/parsing the input document or the stylesheet document
fails, `xsl_transform` raises before reaching the `open` call, so the whole
world — in particular the file at `outDoc` — is left untouched. -/
theorem C2_parse_failure_leaves_world_untouched (eng : Engine Doc Tr Res)
    (w : World) (inDoc xslFile outDoc : Path)
    (h : (∃ e, ET_parse eng w inDoc = .error e)
        ∨ (∃ e, ET_parse eng w xslFile = .error e)) :
    (∃ e, xsl_transform eng w inDoc xslFile outDoc = .error e)
    ∧ runWorld eng w inDoc xslFile outDoc = w := by
  have hfail : ∃ e, xsl_transform eng w inDoc xslFile outDoc = .error e := by
    unfold xsl_transform
    cases hdoc : ET_parse eng w inDoc with
    | error e => exact ⟨e, rfl⟩
    | ok doc =>
      cases hxslt : ET_parse eng w xslFile with
      | error e => exact ⟨e, rfl⟩
      | ok xslt =>
        rcases h with ⟨e, he⟩ | ⟨e, he⟩
        · rw [hdoc] at he
          cases he
        · rw [hxslt] at he
          cases he
  obtain ⟨e, he⟩ := hfail
  refine ⟨⟨e, he⟩, ?_⟩
  unfold runWorld
  rw [he]

/-- C2 witness: with a rejecting parser and concrete paths the call fails and
the world is returned unchanged. -/
theorem C2_witness :
    (∃ e, xsl_transform failEngine w0 "in.xml" "s.xsl" "out.xml" = .error e)
    ∧ runWorld failEngine w0 "in.xml" "s.xsl" "out.xml" = w0 :=
  C2_parse_failure_leaves_world_untouched failEngine w0 "in.xml" "s.xsl" "out.xml"
    (Or.inl ⟨.badXml "in.xml" "syntax error", rfl⟩)

/-- C4: `xsl_transform` raises exception `e` precisely when one of its stages
(reading/parsing the input, reading/parsing the stylesheet, compiling it,
executing the transform, opening the output for writing) is the first to fail
and raises `e` — nothing is caught, classified, retried or converted. -/
theorem C4_errors_propagate_unmodified (eng : Engine Doc Tr Res) (w : World)
    (inDoc xslFile outDoc : Path) (e : Err) :
    xsl_transform eng w inDoc xslFile outDoc = .error e
      ↔ stageError eng w inDoc xslFile outDoc e := by
  unfold stageError
  constructor
  · intro h
    unfold xsl_transform at h
    split at h
    · rename_i he
      cases h
      exact Or.inl he
    rename_i doc hdoc
    split at h
    · rename_i he
      cases h
      exact Or.inr (Or.inl ⟨doc, hdoc, he⟩)
    rename_i xslt hxslt
    split at h
    · rename_i he
      cases h
      exact Or.inr (Or.inr (Or.inl ⟨doc, xslt, hdoc, hxslt, he⟩))
    rename_i t ht
    split at h
    · rename_i he
      cases h
      exact Or.inr (Or.inr (Or.inr (Or.inl ⟨doc, xslt, t, hdoc, hxslt, ht, he⟩)))
    rename_i r hr
    exact Or.inr (Or.inr (Or.inr (Or.inr ⟨doc, xslt, t, r, hdoc, hxslt, ht, hr, h⟩)))
  · intro h
    unfold xsl_transform
    rcases h with he | ⟨doc, hdoc, he⟩ | ⟨doc, xslt, hdoc, hxslt, he⟩
      | ⟨doc, xslt, t, hdoc, hxslt, ht, he⟩ | ⟨doc, xslt, t, r, hdoc, hxslt, ht, hr, he⟩
    · simp only [he]
    · simp only [hdoc, he]
    · simp only [hdoc, hxslt, he]
    · simp only [hdoc, hxslt, ht, he]
    · simp only [hdoc, hxslt, ht, hr, he]

/-- C4 witness: with the rejecting parser, the call raises exactly the input
parse error. -/
theorem C4_witness :
    xsl_transform failEngine w0 "in.xml" "s.xsl" "out.xml"
      = .error (.badXml "in.xml" "syntax error") :=
  (C4_errors_propagate_unmodified failEngine w0 "in.xml" "s.xsl" "out.xml"
    (.badXml "in.xml" "syntax error")).mpr (Or.inl rfl)

/-- C7: the driver is the single fixed invocation of `xsl_transform` on the
three build-substituted path constants, and on success it prints exactly the
fixed completion message; the constants are the literals from the source. -/
theorem C7_fixed_driver (eng : Engine Doc Tr Res) (w : World) :
    doxy_deduplicate_index eng w
      = Except.map (fun w2 => (w2, [completionMsg]))
          (xsl_transform eng w doxygenIndexPath dedupXslPath doxygenIndexPath)
    ∧ completionMsg = "Removed duplicated <compound> elements in index.xml"
    ∧ doxygenIndexPath = "@DOXYGEN_OUTPUT_DIRECTORY@/xml/index.xml"
    ∧ dedupXslPath = "@PROJECT_DOC_DIR@/thirdparty/doxygen/dedup_index.xsl" := by
  refine ⟨?_, rfl, rfl, rfl⟩
  unfold doxy_deduplicate_index
  cases xsl_transform eng w doxygenIndexPath dedupXslPath doxygenIndexPath <;> rfl

/-- C8: the driver passes the same path constant as input and output, so a
successful run replaces the input file in place with the transform output and
touches no other path — there is no backup copy anywhere in the world. -/
theorem C8_in_place_overwrite (eng : Engine Doc Tr Res) (w w2 : World)
    (out : List String)
    (h : doxy_deduplicate_index eng w = .ok (w2, out)) :
    (∀ wx : World, doxy_deduplicate_index eng wx
        = Except.map (fun ww => (ww, [completionMsg]))
            (xsl_transform eng wx doxygenIndexPath dedupXslPath doxygenIndexPath))
    ∧ (∃ r, w2.files doxygenIndexPath = some (eng.serialize r ++ "\n"))
    ∧ (∀ p, p ≠ doxygenIndexPath → w2.files p = w.files p) := by
  have hdx : ∀ wx : World, doxy_deduplicate_index eng wx
      = Except.map (fun ww => (ww, [completionMsg]))
          (xsl_transform eng wx doxygenIndexPath dedupXslPath doxygenIndexPath) := by
    intro wx
    unfold doxy_deduplicate_index
    cases xsl_transform eng wx doxygenIndexPath dedupXslPath doxygenIndexPath <;> rfl
  have hx : xsl_transform eng w doxygenIndexPath dedupXslPath doxygenIndexPath
      = .ok w2 := by
    have := (hdx w).symm.trans h
    cases hres : xsl_transform eng w doxygenIndexPath dedupXslPath doxygenIndexPath with
    | error e =>
      rw [hres] at this
      cases this
    | ok ww =>
      rw [hres] at this
      cases this
      rfl
  obtain ⟨doc, xslt, t, r, _, _, _, _, hw⟩ :=
    (xsl_transform_ok_iff eng w doxygenIndexPath dedupXslPath doxygenIndexPath w2).mp hx
  obtain ⟨_, hout, hother, _⟩ := writeFile_ok hw
  exact ⟨hdx, ⟨r, hout⟩, hother⟩
/-- C8 witness: the in-place overwrite at the concrete driver world. -/
theorem C8_witness :
    (∀ wx : World, doxy_deduplicate_index trivEngine wx
        = Except.map (fun ww => (ww, [completionMsg]))
            (xsl_transform trivEngine wx doxygenIndexPath dedupXslPath
              doxygenIndexPath))
    ∧ (∃ r, wDriver2.files doxygenIndexPath = some (trivEngine.serialize r ++ "\n"))
    ∧ (∀ p, p ≠ doxygenIndexPath → wDriver2.files p = wDriver.files p) :=
  C8_in_place_overwrite trivEngine wDriver wDriver2 [completionMsg] rfl

/-- C9: a successful `xsl_transform` writes `str(transformed_doc)` followed by
exactly one newline from `print`, so the written file always ends in a newline
character even when the serialized XML itself does not. -/
theorem C9_print_appends_newline (eng : Engine Doc Tr Res) (w : World)
    (inDoc xslFile outDoc : Path) (w2 : World)
    (h : xsl_transform eng w inDoc xslFile outDoc = .ok w2) :
    ∃ doc xslt t r s,
      ET_parse eng w inDoc = .ok doc ∧ ET_parse eng w xslFile = .ok xslt
      ∧ ET_XSLT eng xslt = .ok t ∧ runXslt eng t doc = .ok r
      ∧ w2.files outDoc = some s ∧ s = eng.serialize r ++ "\n"
      ∧ s.data.getLast? = some '\n' := by
  obtain ⟨doc, xslt, t, r, hdoc, hxslt, ht, hr, hw⟩ :=
    (xsl_transform_ok_iff eng w inDoc xslFile outDoc w2).mp h
  refine ⟨doc, xslt, t, r, eng.serialize r ++ "\n", hdoc, hxslt, ht, hr,
    (writeFile_ok hw).2.1, rfl, ?_⟩
  rw [String.data_append]
  exact List.getLast?_concat _

/-- C9 witness: the concrete run writes `"doc\n"`, which ends in a newline. -/
theorem C9_witness :
    ∃ doc xslt t r s,
      ET_parse trivEngine w0 "in.xml" = .ok doc
      ∧ ET_parse trivEngine w0 "s.xsl" = .ok xslt
      ∧ ET_XSLT trivEngine xslt = .ok t ∧ runXslt trivEngine t doc = .ok r
      ∧ (runWorld trivEngine w0 "in.xml" "s.xsl" "out.xml").files "out.xml" = some s
      ∧ s = trivEngine.serialize r ++ "\n"
      ∧ s.data.getLast? = some '\n' :=
  C9_print_appends_newline trivEngine w0 "in.xml" "s.xsl" "out.xml"
    (runWorld trivEngine w0 "in.xml" "s.xsl" "out.xml") rfl

/-- C10: `xsl_transform` is deterministic in the contents of the two files it
reads: two successful runs over worlds agreeing on `inDoc` and `xslFile`
write identical bytes to `outDoc`. -/
theorem C10_deterministic (eng : Engine Doc Tr Res) (wA wB : World)
    (inDoc xslFile outDoc : Path) (wA2 wB2 : World)
    (hin : wA.files inDoc = wB.files inDoc)
    (hxsl : wA.files xslFile = wB.files xslFile)
    (hA : xsl_transform eng wA inDoc xslFile outDoc = .ok wA2)
    (hB : xsl_transform eng wB inDoc xslFile outDoc = .ok wB2) :
    wA2.files outDoc = wB2.files outDoc := by
  obtain ⟨docA, xsltA, tA, rA, hdocA, hxsltA, htA, hrA, hwA⟩ :=
    (xsl_transform_ok_iff eng wA inDoc xslFile outDoc wA2).mp hA
  obtain ⟨docB, xsltB, tB, rB, hdocB, hxsltB, htB, hrB, hwB⟩ :=
    (xsl_transform_ok_iff eng wB inDoc xslFile outDoc wB2).mp hB
  rw [ET_parse_congr eng inDoc hin, hdocB] at hdocA
  rw [ET_parse_congr eng xslFile hxsl, hxsltB] at hxsltA
  cases hdocA
  cases hxsltA
  rw [htB] at htA
  cases htA
  rw [hrB] at hrA
  cases hrA
  rw [(writeFile_ok hwA).2.1, (writeFile_ok hwB).2.1]

/-- C10 witness: two concrete worlds that agree only on the two read files
produce the same bytes at the output path. -/
theorem C10_witness :
    (runWorld trivEngine w0 "in.xml" "s.xsl" "out.xml").files "out.xml"
      = (runWorld trivEngine wC10 "in.xml" "s.xsl" "out.xml").files "out.xml" :=
  C10_deterministic trivEngine w0 wC10 "in.xml" "s.xsl" "out.xml"
    (runWorld trivEngine w0 "in.xml" "s.xsl" "out.xml")
    (runWorld trivEngine wC10 "in.xml" "s.xsl" "out.xml") rfl rfl rfl rfl

/-! ### Success shapes of the individual stages -/

theorem ET_parse_ok {eng : Engine Doc Tr Res} {w : World} {p : Path} {d : Doc}
    (h : ET_parse eng w p = .ok d) :
    ∃ s, w.files p = some s ∧ eng.parseDoc s = .ok d := by
  unfold ET_parse at h
  split at h
  · cases h
  · rename_i s hs
    split at h
    · cases h
    · rename_i d2 hd2
      cases h
      exact ⟨s, hs, hd2⟩

theorem ET_XSLT_ok {eng : Engine Doc Tr Res} {xslt : Doc} {t : Tr}
    (h : ET_XSLT eng xslt = .ok t) : eng.compileXslt xslt = .ok t := by
  unfold ET_XSLT at h
  split at h
  · cases h
  · rename_i t2 ht2
    cases h
    exact ht2

theorem runXslt_ok {eng : Engine Doc Tr Res} {t : Tr} {d : Doc} {r : Res}
    (h : runXslt eng t d = .ok r) : eng.applyXslt t d = .ok r := by
  unfold runXslt at h
  split at h
  · cases h
  · rename_i r2 hr2
    cases h
    exact hr2

/-- The engine parses a freshly serialized index document (with the newline
`print` appended) back to the same document. -/
theorem dedupEngine_parse_ser (d : IndexDoc)
    (hq : ∀ c ∈ d.compounds, quoteChar ∉ c.refid.data) :
    dedupEngine.parseDoc (serializeIndex d ++ "\n") = .ok (.index d) := by
  unfold dedupEngine
  simp only
  rw [if_neg (ser_ne_xsl d)]
  simp only [parseIndex_round d hq]

/-- The engine recognises the stylesheet text. -/
theorem dedupEngine_parse_xslText :
    dedupEngine.parseDoc dedupXslText = .ok .stylesheet := by
  unfold dedupEngine
  simp

/-- Anatomy of a successful transform with the dedup engine: the input file
parses to an index document, the stylesheet file holds the stylesheet text,
and the output file receives the serialized deduplication of the input. -/
theorem dedup_transform_ok {w : World} {i x o : Path} {w2 : World}
    (h : xsl_transform dedupEngine w i x o = .ok w2) :
    ∃ d : IndexDoc,
      (∃ si, w.files i = some si ∧ parseIndex si = .ok d)
      ∧ w.files x = some dedupXslText
      ∧ w.writable o = true
      ∧ w2.files o = some (serializeIndex ⟨dedupKeepFirst d.compounds⟩ ++ "\n")
      ∧ (∀ p, p ≠ o → w2.files p = w.files p)
      ∧ w2.writable = w.writable := by
  obtain ⟨doc, xslt, t, r, hdoc, hxslt, ht, hr, hw⟩ :=
    (xsl_transform_ok_iff dedupEngine w i x o w2).mp h
  have hcomp := ET_XSLT_ok ht
  cases xslt with
  | index d0 =>
    rw [show dedupEngine.compileXslt (.index d0) = .error "not a stylesheet" from rfl]
      at hcomp
    cases hcomp
  | stylesheet =>
  have happ := runXslt_ok hr
  cases doc with
  | stylesheet =>
    rw [show dedupEngine.applyXslt t MDoc.stylesheet
        = .error "cannot transform a stylesheet" from rfl] at happ
    cases happ
  | index d =>
  rw [show dedupEngine.applyXslt t (.index d)
      = .ok (⟨dedupKeepFirst d.compounds⟩ : IndexDoc) from rfl] at happ
  cases happ
  obtain ⟨sx, hsx, hpx⟩ := ET_parse_ok hxslt
  have hsxeq : sx = dedupXslText := dedupEngine_parse_stylesheet hpx
  subst hsxeq
  obtain ⟨si, hsi, hpi⟩ := ET_parse_ok hdoc
  have hpi2 : parseIndex si = .ok d := dedupEngine_parse_index hpi
  obtain ⟨hwrit, hout, hother, hweq⟩ := writeFile_ok hw
  exact ⟨d, ⟨si, hsi, hpi2⟩, hsx, hwrit, hout, hother, hweq⟩

/-- C3: with the dedup engine, every successful `xsl_transform` writes the
deduplicated input index, in which every key of the input document occurs
exactly once; in particular the spec's end-to-end scenario — input
`<index><compound refid="A"/><compound refid="A"/><compound refid="B"/></index>`
with the keep-first-per-refid stylesheet — produces exactly
`<index><compound refid="A"/><compound refid="B"/></index>`. -/
theorem C3_unique_keys :
    (∀ (w : World) (i x o : Path) (w2 : World),
      xsl_transform dedupEngine w i x o = .ok w2 →
      ∃ d : IndexDoc,
        (∃ si, w.files i = some si ∧ parseIndex si = .ok d)
        ∧ w2.files o = some (serializeIndex ⟨dedupKeepFirst d.compounds⟩ ++ "\n")
        ∧ ∀ k ∈ refids d.compounds,
            (refids (dedupKeepFirst d.compounds)).count k = 1)
    ∧ (runWorld dedupEngine w3 "in.xml" "dedup.xsl" "out.xml").files "out.xml"
        = some "<index><compound refid=\"A\"/><compound refid=\"B\"/></index>\n" := by
  constructor
  · intro w i x o w2 h
    obtain ⟨d, hin, _, _, hout, _, _⟩ := dedup_transform_ok h
    exact ⟨d, hin, hout, fun k hk =>
      dedupAux_count_eq_one d.compounds [] k (List.not_mem_nil k) hk⟩
  · decide

/-- C3 witness: the general statement applied to the end-to-end scenario. -/
theorem C3_witness :
    ∃ d : IndexDoc,
      (∃ si, w3.files "in.xml" = some si ∧ parseIndex si = .ok d)
      ∧ (runWorld dedupEngine w3 "in.xml" "dedup.xsl" "out.xml").files "out.xml"
          = some (serializeIndex ⟨dedupKeepFirst d.compounds⟩ ++ "\n")
      ∧ ∀ k ∈ refids d.compounds,
          (refids (dedupKeepFirst d.compounds)).count k = 1 :=
  C3_unique_keys.1 w3 "in.xml" "dedup.xsl" "out.xml"
    (runWorld dedupEngine w3 "in.xml" "dedup.xsl" "out.xml") rfl

/-- C6: the transform is idempotent on its own output: running it again with
its previous output as input (same stylesheet, `o ≠ x` so the stylesheet was
not overwritten) succeeds and writes byte-identical content. -/
theorem C6_idempotent_on_own_output (w : World) (i x o : Path) (w1 : World)
    (hox : o ≠ x)
    (h1 : xsl_transform dedupEngine w i x o = .ok w1) :
    ∃ w2, xsl_transform dedupEngine w1 o x o = .ok w2
      ∧ w2.files o = w1.files o := by
  obtain ⟨d, ⟨si, hsi, hpi⟩, hx, hwrit, hout, hother, hweq⟩ := dedup_transform_ok h1
  have hq : ∀ c ∈ d.compounds, quoteChar ∉ c.refid.data := parseIndex_no_quote si d hpi
  have hq2 : ∀ c ∈ dedupKeepFirst d.compounds, quoteChar ∉ c.refid.data :=
    fun c hc => hq c (dedupAux_subset d.compounds [] c hc)
  have hp1 : ET_parse dedupEngine w1 o = .ok (.index ⟨dedupKeepFirst d.compounds⟩) := by
    unfold ET_parse
    simp only [hout, dedupEngine_parse_ser ⟨dedupKeepFirst d.compounds⟩ hq2]
  have hp2 : ET_parse dedupEngine w1 x = .ok .stylesheet := by
    unfold ET_parse
    simp only [hother x (Ne.symm hox), hx, dedupEngine_parse_xslText]
  have hp3 : ET_XSLT dedupEngine MDoc.stylesheet = .ok () := rfl
  have hidem : dedupKeepFirst (dedupKeepFirst d.compounds) = dedupKeepFirst d.compounds :=
    dedupKeepFirst_idem d.compounds
  have hp4 : runXslt dedupEngine () (.index ⟨dedupKeepFirst d.compounds⟩)
      = .ok ⟨dedupKeepFirst d.compounds⟩ := by
    unfold runXslt
    have happly : dedupEngine.applyXslt () (.index ⟨dedupKeepFirst d.compounds⟩)
        = .ok (⟨dedupKeepFirst d.compounds⟩ : IndexDoc) := by
      show Except.ok (⟨dedupKeepFirst (dedupKeepFirst d.compounds)⟩ : IndexDoc)
          = .ok ⟨dedupKeepFirst d.compounds⟩
      rw [hidem]
    simp only [happly]
  have hwr1 : w1.writable o = true := by rw [hweq]; exact hwrit
  have hp5 : writeFile w1 o
      (dedupEngine.serialize ⟨dedupKeepFirst d.compounds⟩ ++ "\n")
      = .ok { w1 with files := fun q =>
          if q = o then some (dedupEngine.serialize ⟨dedupKeepFirst d.compounds⟩ ++ "\n")
          else w1.files q } := by
    unfold writeFile
    rw [if_pos hwr1]
  refine ⟨_, (xsl_transform_ok_iff dedupEngine w1 o x o _).mpr
    ⟨.index ⟨dedupKeepFirst d.compounds⟩, .stylesheet, (), ⟨dedupKeepFirst d.compounds⟩,
      hp1, hp2, hp3, hp4, hp5⟩, ?_⟩
  show (if o = o then some (dedupEngine.serialize (⟨dedupKeepFirst d.compounds⟩ : IndexDoc) ++ "\n")
      else w1.files o) = w1.files o
  rw [if_pos rfl, hout]
  rfl

/-- C6 witness: idempotence at the end-to-end scenario world. -/
theorem C6_witness :
    ∃ w2, xsl_transform dedupEngine
        (runWorld dedupEngine w3 "in.xml" "dedup.xsl" "out.xml")
        "out.xml" "dedup.xsl" "out.xml" = .ok w2
      ∧ w2.files "out.xml"
          = (runWorld dedupEngine w3 "in.xml" "dedup.xsl" "out.xml").files "out.xml" :=
  C6_idempotent_on_own_output w3 "in.xml" "dedup.xsl" "out.xml"
    (runWorld dedupEngine w3 "in.xml" "dedup.xsl" "out.xml") (by decide) rfl

/-- C5: every driver invocation runs the fixed linear sequence load input →
load stylesheet → compile → execute → serialize to the target → completion
notice: the run succeeds exactly when the whole trace is produced, every
trace is an initial segment of that one sequence (no branching, loops or
retries), the completion notice appears only after a successful write, and
the instrumentation agrees with the uninstrumented driver. -/
theorem C5_linear_sequence (eng : Engine Doc Tr Res) (w : World) :
    ((∃ res, (doxyTraced eng w).1 = .ok res) ↔ (doxyTraced eng w).2 = fullTrace)
    ∧ (∃ tail, (doxyTraced eng w).2 ++ tail = fullTrace)
    ∧ (Event.completionNotice ∈ (doxyTraced eng w).2 →
        Event.serializeResult ∈ (doxyTraced eng w).2
        ∧ ∃ res, (doxyTraced eng w).1 = .ok res)
    ∧ (doxyTraced eng w).1 = doxy_deduplicate_index eng w := by
  cases h1 : ET_parse eng w doxygenIndexPath with
  | error e =>
    have ht : doxyTraced eng w = (.error e, []) := by
      unfold doxyTraced
      simp only [h1]
    have hd : doxy_deduplicate_index eng w = .error e := by
      unfold doxy_deduplicate_index xsl_transform
      simp only [h1]
    rw [ht, hd]
    refine ⟨⟨fun hex => ?_, fun htr => ?_⟩, ⟨fullTrace, rfl⟩, fun hn => ?_, rfl⟩
    · obtain ⟨res, hres⟩ := hex
      simp at hres
    · simp [fullTrace] at htr
    · exact absurd hn (by simp)
  | ok doc =>
    cases h2 : ET_parse eng w dedupXslPath with
    | error e =>
      have ht : doxyTraced eng w = (.error e, [.loadInput]) := by
        unfold doxyTraced
        simp only [h1, h2]
      have hd : doxy_deduplicate_index eng w = .error e := by
        unfold doxy_deduplicate_index xsl_transform
        simp only [h1, h2]
      rw [ht, hd]
      refine ⟨⟨fun hex => ?_, fun htr => ?_⟩,
        ⟨[.loadStylesheet, .compileStylesheet, .executeTransform, .serializeResult,
          .completionNotice], rfl⟩, fun hn => ?_, rfl⟩
      · obtain ⟨res, hres⟩ := hex
        simp at hres
      · simp [fullTrace] at htr
      · exact absurd hn (by simp)
    | ok xslt =>
      cases h3 : ET_XSLT eng xslt with
      | error e =>
        have ht : doxyTraced eng w = (.error e, [.loadInput, .loadStylesheet]) := by
          unfold doxyTraced
          simp only [h1, h2, h3]
        have hd : doxy_deduplicate_index eng w = .error e := by
          unfold doxy_deduplicate_index xsl_transform
          simp only [h1, h2, h3]
        rw [ht, hd]
        refine ⟨⟨fun hex => ?_, fun htr => ?_⟩,
          ⟨[.compileStylesheet, .executeTransform, .serializeResult,
            .completionNotice], rfl⟩, fun hn => ?_, rfl⟩
        · obtain ⟨res, hres⟩ := hex
          simp at hres
        · simp [fullTrace] at htr
        · exact absurd hn (by simp)
      | ok transform =>
        cases h4 : runXslt eng transform doc with
        | error e =>
          have ht : doxyTraced eng w
              = (.error e, [.loadInput, .loadStylesheet, .compileStylesheet]) := by
            unfold doxyTraced
            simp only [h1, h2, h3, h4]
          have hd : doxy_deduplicate_index eng w = .error e := by
            unfold doxy_deduplicate_index xsl_transform
            simp only [h1, h2, h3, h4]
          rw [ht, hd]
          refine ⟨⟨fun hex => ?_, fun htr => ?_⟩,
            ⟨[.executeTransform, .serializeResult, .completionNotice], rfl⟩,
            fun hn => ?_, rfl⟩
          · obtain ⟨res, hres⟩ := hex
            simp at hres
          · simp [fullTrace] at htr
          · exact absurd hn (by simp)
        | ok transformed_doc =>
          cases h5 : writeFile w doxygenIndexPath
              (eng.serialize transformed_doc ++ "\n") with
          | error e =>
            have ht : doxyTraced eng w
                = (.error e, [.loadInput, .loadStylesheet, .compileStylesheet,
                    .executeTransform]) := by
              unfold doxyTraced
              simp only [h1, h2, h3, h4, h5]
            have hd : doxy_deduplicate_index eng w = .error e := by
              unfold doxy_deduplicate_index xsl_transform
              simp only [h1, h2, h3, h4, h5]
            rw [ht, hd]
            refine ⟨⟨fun hex => ?_, fun htr => ?_⟩,
              ⟨[.serializeResult, .completionNotice], rfl⟩, fun hn => ?_, rfl⟩
            · obtain ⟨res, hres⟩ := hex
              simp at hres
            · simp [fullTrace] at htr
            · exact absurd hn (by simp)
          | ok w2 =>
            have ht : doxyTraced eng w = (.ok (w2, [completionMsg]), fullTrace) := by
              unfold doxyTraced
              simp only [h1, h2, h3, h4, h5]
            have hd : doxy_deduplicate_index eng w = .ok (w2, [completionMsg]) := by
              unfold doxy_deduplicate_index xsl_transform
              simp only [h1, h2, h3, h4, h5]
            rw [ht, hd]
            exact ⟨⟨fun _ => rfl, fun _ => ⟨(w2, [completionMsg]), rfl⟩⟩,
              ⟨[], by simp⟩, fun _ => ⟨by simp [fullTrace], ⟨(w2, [completionMsg]), rfl⟩⟩, rfl⟩

/-- C5 witness: on a concrete successful run the full six-event trace is
produced. -/
theorem C5_witness :
    (doxyTraced trivEngine wDriver).2 = fullTrace :=
  (C5_linear_sequence trivEngine wDriver).1.mp ⟨(wDriver2, [completionMsg]), rfl⟩

end DedupIndex
